import Mathlib

/-!
Verification development for the workspace-preparation script `prep.py`
(OSS / Enterprise Docker-Compose deployment lab).

The script is embedded shallowly:

* Python strings are `Str := List Char`; filesystem paths are lists of
  components (`Path := List Str`), taken relative to the script directory.
* The workspace is `State := List (Path × FsObj)`: a finite association
  list from paths to filesystem objects.  A `.file` carries its text
  content as a list of lines; a gzip-tar archive is a `.archive` carrying
  its member list (path plus an is-directory flag); a `.symlink` carries
  its target path.
* Python `dict` values are insertion-ordered association lists with unique
  keys (`updEntry` / `dictUpdate` mirror `d[k] = v` and `d.update(n)`).
* `sys.exit(1)` paths are modelled with `Except`: `.error s` means the
  process aborted while the workspace was in state `s`.
* Interactive input (`getpass`, `input`) is modelled by passing the values
  the prompts would return; external `docker compose` invocations do not
  modify workspace files and are not part of the state.
* `Path.exists` / `is_file` follow symbolic links; resolution is modelled
  with fuel bounded by the number of entries, so a link cycle resolves to
  "does not exist", matching `ELOOP` behaviour.
-/

namespace Prep

abbrev Str := List Char

abbrev Path := List Str

/-- A filesystem object in the workspace model. -/
inductive FsObj where
  | dir : FsObj
  | file : List Str → FsObj
  | archive : List (Path × Bool) → FsObj
  | symlink : Path → FsObj
deriving DecidableEq

abbrev State := List (Path × FsObj)

def lookupPath : State → Path → Option FsObj
  | [], _ => none
  | e :: t, p => if e.1 = p then some e.2 else lookupPath t p

def isDirObj : FsObj → Bool
  | .dir => true
  | _ => false

def isSymlinkObj : FsObj → Bool
  | .symlink _ => true
  | _ => false

/-- Regular files and archives are both ordinary files on disk. -/
def isFileObj : FsObj → Bool
  | .file _ => true
  | .archive _ => true
  | _ => false

/-- Keep exactly the entries whose path satisfies `q`. -/
def keyFilter (q : Path → Bool) : State → State
  | [] => []
  | e :: t => if q e.1 then e :: keyFilter q t else keyFilter q t

/-- Does `isPathUnder d p` hold: is `p` equal to `d` or strictly below it? -/
def isPathUnder : Path → Path → Bool
  | [], _ => true
  | _ :: _, [] => false
  | a :: d, b :: p => if a = b then isPathUnder d p else false

/-- `shutil.rmtree`: drop the directory and everything below it. -/
def rmtreeAt (s : State) (p : Path) : State :=
  keyFilter (fun r => ! isPathUnder p r) s

/-- `os.unlink` / `Path.unlink`: drop exactly the entry at `p`. -/
def unlinkAt (s : State) (p : Path) : State :=
  keyFilter (fun r => ! decide (r = p)) s

/-- Create or overwrite the object stored at `p`. -/
def setEntry (s : State) (p : Path) (o : FsObj) : State :=
  unlinkAt s p ++ [(p, o)]

/-- Follow symbolic links until a non-link object (or nothing) is found.
Fuel bounds the walk; a cycle exhausts the fuel and yields `none`,
matching the `ELOOP`-makes-`exists()`-false behaviour of `pathlib`. -/
def resolveKind (s : State) : Nat → Path → Option FsObj
  | 0, _ => none
  | fuel + 1, p =>
    match lookupPath s p with
    | some (.symlink t) => resolveKind s fuel t
    | o => o

/-- The object a path finally denotes, after following symlinks. -/
def resolved (s : State) (p : Path) : Option FsObj :=
  resolveKind s (s.length + 1) p

/-- `pathlib.Path.exists()` (follows symlinks). -/
def pathExists (s : State) (p : Path) : Bool :=
  (resolved s p).isSome

/-- `pathlib.Path.is_file()` (follows symlinks). -/
def pathIsFile (s : State) (p : Path) : Bool :=
  (resolved s p).any isFileObj

/-- The path `open(p, 'w')` actually writes to: the end of the symlink
chain (writing through links).  On a cycle the fuel runs out and the
remaining link path is returned; the caller treats that as an error. -/
def finalPath (s : State) : Nat → Path → Path
  | 0, p => p
  | fuel + 1, p =>
    match lookupPath s p with
    | some (.symlink t) => finalPath s fuel t
    | _ => p

/-- Lexical resolution of `.` and `..` components, as the OS applies them
when a relative path is opened for writing. -/
def normalizePath (p : Path) : Path :=
  p.foldl
    (fun acc comp =>
      if comp = ".".toList then acc
      else if comp = "..".toList then
        match acc.getLast? with
        | some last => if last = "..".toList then acc ++ [comp] else acc.dropLast
        | none => acc ++ [comp]
      else acc ++ [comp])
    []

/-! ### Configuration constants of `prep.py` -/

def COMPOSE_FILE_NAME : Path := ["compose.yaml".toList]

def OSS_COMPOSE_FILE : Path := ["oss-compose.yaml".toList]

def ENTERPRISE_COMPOSE_FILE : Path := ["aria-compose.yaml".toList]

def ENV_FILE : Path := [".env".toList]

def MASTER_D_LINK : Path := ["data".toList, "master.d".toList]

def OSS_MASTER_DIR : Path := ["data".toList, "oss-master".toList]

def ENT_MASTER_DIR : Path := ["data".toList, "ent-master".toList]

/-- `Path('./x')` and `Path('x')` are the same path, so the leading `./`
of the source strings disappears in the component lists. -/
def DIRECTORIES_TO_REMOVE : List Path :=
  [ ["build".toList, "sse-installer".toList],
    ["build".toList, "raas".toList, "eapi_service".toList],
    ["build".toList, "salt-master".toList, "eapi_plugin".toList],
    ["data".toList, "postgres".toList],
    ["data".toList, "raas".toList, "pki".toList],
    ["data".toList, "master".toList, "pki".toList],
    ["data".toList, "redis".toList] ]

def FILES_TO_REMOVE : List Path :=
  [ [".env".toList],
    ["data".toList, "raas".toList, "raas.secconf".toList],
    ["data".toList, "raas".toList, "initialized".toList],
    ["data".toList, "redis".toList, "redis.conf".toList] ]

def SYMLINKS_TO_REMOVE : List Path :=
  [ ["compose.yaml".toList], ["data".toList, "master.d".toList] ]

def DEFAULT_SALT_VERSION : Str := "3006.9".toList

def DEFAULT_POSTGRES_USER : Str := "salteapi".toList

def SALT_VERSION_KEY : Str := "SALT_VERSION".toList

def RAAS_RPM_NAME_KEY : Str := "RAAS_RPM_NAME".toList

def MASTER_PLUGIN_NAME_KEY : Str := "MASTER_PLUGIN_NAME".toList

def POSTGRES_USER_KEY : Str := "POSTGRES_USER".toList

def POSTGRES_PASS_KEY : Str := "POSTGRES_PASS".toList

def REDIS_PASSWORD_KEY : Str := "REDIS_PASSWORD".toList

def RAAS_GLOB_DIR : Path :=
  ["build".toList, "raas".toList, "eapi_service".toList, "files".toList]

def PLUGIN_GLOB_DIR : Path :=
  ["build".toList, "salt-master".toList, "eapi_plugin".toList, "files".toList]

def SRC_EAPI_SERVICE : Path :=
  ["build".toList, "sse-installer".toList, "salt".toList, "sse".toList, "eapi_service".toList]

def DEST_EAPI_SERVICE : Path :=
  ["build".toList, "raas".toList, "eapi_service".toList]

def SRC_EAPI_PLUGIN : Path :=
  ["build".toList, "sse-installer".toList, "salt".toList, "sse".toList, "eapi_plugin".toList]

def DEST_EAPI_PLUGIN : Path :=
  ["build".toList, "salt-master".toList, "eapi_plugin".toList]

def INSTALLER_BUNDLE_PRE : Str := "vRA_SaltStack_Config".toList

def INSTALLER_BUNDLE_SUF : Str := ".tar.gz".toList

/-! ### Workspace Cleaner (`clean_environment`) -/

inductive LogLevel where
  | debug
  | info
  | warning
  | errorLevel
deriving DecidableEq

abbrev LogMsg := LogLevel × Str

def joinPath (p : Path) : Str := (List.intersperse "/".toList p).flatten

/-- Directory removal pass of `clean_environment`.  The source guards with
`exists() and is_dir()` and calls `shutil.rmtree`; `rmtree` refuses to
operate on a symbolic link (it raises, and the exception is caught and
logged), so the workspace changes exactly when the path itself is a
directory. -/
def removeDirStep (s : State) (p : Path) : State :=
  if (lookupPath s p).any isDirObj then rmtreeAt s p else s

/-- File removal pass: `exists() and is_file()` follow symlinks, and
`Path.unlink` removes the path entry itself (a symlink to a file is
unlinked, its target untouched). -/
def removeFileStep (s : State) (p : Path) : State :=
  if pathIsFile s p then unlinkAt s p else s

/-- Symlink removal pass, with the messages the source logs: unlink only
when the path is really a symlink; otherwise a DEBUG message claiming the
symlink does not exist. -/
def removeSymlinkLogged (s : State) (p : Path) : State × List LogMsg :=
  if (lookupPath s p).any isSymlinkObj then
    (unlinkAt s p, [(.info, "Removed symlink: ".toList ++ joinPath p)])
  else
    (s, [(.debug, "Symlink ".toList ++ joinPath p ++ " does not exist. Skipping.".toList)])

def removeSymlinkStep (s : State) (p : Path) : State :=
  (removeSymlinkLogged s p).1

/-- `clean_environment`: the `docker compose down` teardown is an external
process invocation and does not modify workspace files, so the state
transformation is the three removal passes in source order. -/
def clean_environment (s : State) : State :=
  SYMLINKS_TO_REMOVE.foldl removeSymlinkStep
    (FILES_TO_REMOVE.foldl removeFileStep
      (DIRECTORIES_TO_REMOVE.foldl removeDirStep s))

/-! ### Python dict and `.env` serialization -/

/-- `d[k] = v` on an insertion-ordered dict: replace in place if the key
is present, otherwise append. -/
def updEntry (m : List (Str × Str)) (k v : Str) : List (Str × Str) :=
  if m.any (fun e => decide (e.1 = k)) then
    m.map (fun e => if e.1 = k then (k, v) else e)
  else m ++ [(k, v)]

/-- `m.update(n)`: apply every binding of `n` to `m`, in order. -/
def dictUpdate (m n : List (Str × Str)) : List (Str × Str) :=
  n.foldl (fun acc e => updEntry acc e.1 e.2) m

def lookupKey : List (Str × Str) → Str → Option Str
  | [], _ => none
  | e :: t, k => if e.1 = k then some e.2 else lookupKey t k

/-- The last binding of a key in a raw binding list (`dict` construction
makes the last occurrence win). -/
def revLookup (m : List (Str × Str)) (k : Str) : Option Str :=
  lookupKey m.reverse k

def hasKey (m : List (Str × Str)) (k : Str) : Bool :=
  m.any (fun e => decide (e.1 = k))

/-- Python `str.strip()`: drop leading and trailing whitespace. -/
def stripStr (l : Str) : Str :=
  ((l.dropWhile Char.isWhitespace).reverse.dropWhile Char.isWhitespace).reverse

/-- One line of the `.env` reader: `if '=' in line:` then
`key, value = line.strip().split('=', 1)` and `existing[key] = value`. -/
def parseEnvLine (m : List (Str × Str)) (line : Str) : List (Str × Str) :=
  if line.contains '=' then
    updEntry m ((stripStr line).takeWhile (fun c => decide (c ≠ '=')))
      (((stripStr line).dropWhile (fun c => decide (c ≠ '='))).tail)
  else m

def parseEnvLines (ls : List Str) : List (Str × Str) :=
  ls.foldl parseEnvLine []

/-- Serialization `f"KEY=VALUE\n"`, one line per entry. -/
def renderEnv (m : List (Str × Str)) : List Str :=
  m.map (fun e => e.1 ++ '=' :: e.2)

/-! ### Configuration Materializer (`write_env_file`) -/

/-- Result data of `write_env_file` besides the workspace: the freshly
computed `env_vars` dict, whether the interactive `getpass` prompts ran,
and whether the two artifact-glob warnings were logged. -/
structure EnvCompute where
  vars : List (Str × Str)
  prompted : Bool
  raasMissing : Bool
  pluginMissing : Bool
deriving DecidableEq

/-- Shell-glob filename pattern `pre*suf` (the `*` of the source patterns
never needs to match a slash: the varying part is a single component). -/
def matchesPat (name pre suf : Str) : Bool :=
  pre.isPrefixOf name && suf.isSuffixOf name &&
    decide (pre.length + suf.length ≤ name.length)

/-- `glob.glob(dirp / (pre + "*" + suf))`: names of the existing entries
directly inside `dirp` matching the pattern.  `glob` returns matches in
unspecified scandir order; the model uses state order.  The source then
takes `os.path.basename(paths[0])`, which is the name itself. -/
def globIn (s : State) (dirp : Path) (pre suf : Str) : List Str :=
  s.filterMap (fun e =>
    if e.1.dropLast = dirp then
      match e.1.getLast? with
      | some n => if matchesPat n pre suf then some n else none
      | none => none
    else none)

/-- The `env_vars` construction of `write_env_file`, in source order:
`SALT_VERSION` always; in enterprise mode the two artifact names when
their globs match (a warning otherwise), then either the supplied
credentials (when both password keys are present) or the three
prompt-collected credential entries. -/
def computeEnvVars (saltVersion : Str) (enterprise : Bool)
    (credentials : Option (List (Str × Str)))
    (promptedPostgres promptedRedis : Str) (s : State) : EnvCompute :=
  let m0 : List (Str × Str) := [(SALT_VERSION_KEY, saltVersion)]
  if enterprise then
    let raas := globIn s RAAS_GLOB_DIR "raas".toList ".rpm".toList
    let m1 := match raas with
      | n :: _ => updEntry m0 RAAS_RPM_NAME_KEY n
      | [] => m0
    let plg := globIn s PLUGIN_GLOB_DIR "SSEAPE".toList ".whl".toList
    let m2 := match plg with
      | n :: _ => updEntry m1 MASTER_PLUGIN_NAME_KEY n
      | [] => m1
    let prompt : List (Str × Str) :=
      updEntry (updEntry (updEntry m2 POSTGRES_USER_KEY DEFAULT_POSTGRES_USER)
        POSTGRES_PASS_KEY promptedPostgres) REDIS_PASSWORD_KEY promptedRedis
    match credentials with
    | some cr =>
      if hasKey cr POSTGRES_PASS_KEY && hasKey cr REDIS_PASSWORD_KEY then
        ⟨dictUpdate m2 cr, false, raas.isEmpty, plg.isEmpty⟩
      else ⟨prompt, true, raas.isEmpty, plg.isEmpty⟩
    | none => ⟨prompt, true, raas.isEmpty, plg.isEmpty⟩
  else ⟨m0, false, false, false⟩

/-- `write_env_file`: compute `env_vars` (possibly prompting), read any
existing `.env` into a dict, overlay the fresh values, and rewrite the
file.  Read or write failures (a directory or raw archive bytes at the
path, a link cycle) are caught and end in `sys.exit(1)`, modelled as
`.error` carrying the unchanged workspace; `open` follows symlinks for
both reading and writing. -/
def write_env_file (saltVersion : Str) (enterprise : Bool)
    (credentials : Option (List (Str × Str)))
    (promptedPostgres promptedRedis : Str) (s : State) :
    Except State (State × EnvCompute) :=
  let cv := computeEnvVars saltVersion enterprise credentials
    promptedPostgres promptedRedis s
  let readRes : Except Unit (List (Str × Str)) :=
    if pathExists s ENV_FILE then
      match resolved s ENV_FILE with
      | some (.file ls) => .ok (parseEnvLines ls)
      | _ => .error ()
    else .ok []
  match readRes with
  | .error _ => .error s
  | .ok existing =>
    let tgt := finalPath s (s.length + 1) ENV_FILE
    match lookupPath s tgt with
    | some (.symlink _) => .error s
    | some .dir => .error s
    | _ => .ok (setEntry s tgt (.file (renderEnv (dictUpdate existing cv.vars))), cv)

/-! ### Bundle Acquirer (`prepare_enterprise_bundle`) -/

/-- `script_dir.glob(INSTALLER_BUNDLE_PATTERN)`: direct children whose
single-component name matches `vRA_SaltStack_Config*.tar.gz`. -/
def bundleMatches (s : State) : List (Str × FsObj) :=
  s.filterMap (fun e =>
    match e.1 with
    | [n] =>
      if matchesPat n INSTALLER_BUNDLE_PRE INSTALLER_BUNDLE_SUF then some (n, e.2)
      else none
    | _ => none)

/-- `tar.extractall(path=script_dir / 'build')` with no member filter:
every member is written at `build/<member name>` with `..` components
resolved lexically by the OS at write time — nothing is rejected.
Member payload bytes are not tracked (extracted files get empty text). -/
def extractAll (s : State) (members : List (Path × Bool)) : State :=
  members.foldl
    (fun acc m =>
      setEntry acc (normalizePath ("build".toList :: m.1))
        (if m.2 then FsObj.dir else FsObj.file []))
    s

/-- `shutil.copytree(src, dst, dirs_exist_ok=True)`: merge-copy every
entry of the subtree rooted at `src` to the corresponding path under
`dst`, overwriting entries that already exist there. -/
def copyTreeEntries (s : State) (src dst : Path) : State :=
  (s.filterMap (fun e =>
      if isPathUnder src e.1 then some (dst ++ e.1.drop src.length, e.2) else none)).foldl
    (fun acc e => setEntry acc e.1 e.2) s

/-- `prepare_enterprise_bundle`: locate a bundle by pattern (fatal when
none), extract it into `build/`, then copy the two installer subtrees.
A non-archive match (corrupt bundle) makes `tarfile.open` fail, which is
fatal; a missing source subtree makes `copytree` fail, which is fatal
after extraction has already happened. -/
def prepare_enterprise_bundle (s : State) : Except State State :=
  match bundleMatches s with
  | [] => .error s
  | (_, obj) :: _ =>
    match obj with
    | .archive members =>
      let s1 := extractAll s members
      if (lookupPath s1 SRC_EAPI_SERVICE).any isDirObj then
        let s2 := copyTreeEntries s1 SRC_EAPI_SERVICE DEST_EAPI_SERVICE
        if (lookupPath s2 SRC_EAPI_PLUGIN).any isDirObj then
          .ok (copyTreeEntries s2 SRC_EAPI_PLUGIN DEST_EAPI_PLUGIN)
        else .error s2
      else .error s1
    | _ => .error s

/-! ### Link Manager (`create_symlink`) -/

inductive LinkResult where
  | created
  | alreadyPresent
deriving DecidableEq

/-- `create_symlink(target, link_name, script_dir)`: the target (resolved
absolute under the script directory) must exist or the run exits fatally;
an occupied link path (symlink or anything else) is skipped as already
present; otherwise the absolute symlink is created. -/
def create_symlink (target linkName : Path) (s : State) :
    Except State (State × LinkResult) :=
  if pathExists s target then
    if (lookupPath s linkName).any isSymlinkObj || pathExists s linkName then
      .ok (s, .alreadyPresent)
    else .ok (setEntry s linkName (.symlink target), .created)
  else .error s

/-! ### Launch Controller (`prompt_docker_compose`) -/

inductive Decision where
  | launch
  | skip
deriving DecidableEq

def lowerStr (l : Str) : Str := l.map Char.toLower

def recognizedYes (t : Str) : Bool :=
  decide (t = "y".toList) || decide (t = "yes".toList)

/-- `prompt_docker_compose`: in non-interactive mode the auto-confirm
flag decides immediately.  Interactively, `input()` is called once; EOF
skips, a recognized yes launches, and anything else (recognized no or
invalid input) skips.  `answers` is the stream of lines the terminal
would provide. -/
def prompt_docker_compose (nonInteractive autoConfirm : Bool)
    (answers : List Str) : Decision :=
  if nonInteractive then
    if autoConfirm then .launch else .skip
  else
    match answers with
    | [] => .skip
    | a :: _ =>
      if recognizedYes (lowerStr (stripStr a)) then .launch else .skip

/-! ### Enterprise mode orchestrator (`handle_enterprise_mode`) -/

/-- `handle_enterprise_mode`: clean, acquire the bundle, materialize the
enterprise configuration (the credentials dict passed down contains only
`POSTGRES_USER` — the passwords are left for `write_env_file` to prompt
for), create the two enterprise symlinks, then decide on launch.
`print_file_contents` only displays `.env` and does not change state. -/
def handle_enterprise_mode (saltVersion : Str) (nonInteractive autoConfirm : Bool)
    (promptedPostgres promptedRedis : Str) (answers : List Str) (s : State) :
    Except State (State × EnvCompute × Decision) :=
  match prepare_enterprise_bundle (clean_environment s) with
  | .error t => .error t
  | .ok s2 =>
    match write_env_file saltVersion true (some [(POSTGRES_USER_KEY, DEFAULT_POSTGRES_USER)])
        promptedPostgres promptedRedis s2 with
    | .error t => .error t
    | .ok (s3, cv) =>
      match create_symlink ENTERPRISE_COMPOSE_FILE COMPOSE_FILE_NAME s3 with
      | .error t => .error t
      | .ok (s4, _) =>
        match create_symlink ENT_MASTER_DIR MASTER_D_LINK s4 with
        | .error t => .error t
        | .ok (s5, _) =>
          .ok (s5, cv, prompt_docker_compose nonInteractive autoConfirm answers)

/-! ### Lookup, filter and resolution lemmas -/

theorem isPathUnder_refl (p : Path) : isPathUnder p p = true := by
  induction p with
  | nil => rfl
  | cons a d ih => simp [isPathUnder, ih]

theorem lookupPath_keyFilter (q : Path → Bool) (s : State) (p : Path) :
    lookupPath (keyFilter q s) p = if q p then lookupPath s p else none := by
  induction s with
  | nil => cases hq : q p <;> simp [keyFilter, lookupPath, hq]
  | cons e t ih =>
    simp only [keyFilter]
    by_cases he : e.1 = p
    · subst he
      cases hq : q e.1 <;> simp [lookupPath, hq, ih]
    · cases hq : q e.1 <;> simp [lookupPath, hq, he, ih]

theorem keyFilter_length_le (q : Path → Bool) (s : State) :
    (keyFilter q s).length ≤ s.length := by
  induction s with
  | nil => simp [keyFilter]
  | cons e t ih =>
    simp only [keyFilter]
    cases hq : q e.1 <;> simp <;> omega

theorem lookupPath_append (s t : State) (p : Path) :
    lookupPath (s ++ t) p =
      match lookupPath s p with
      | some o => some o
      | none => lookupPath t p := by
  induction s with
  | nil => simp [lookupPath]
  | cons e r ih => by_cases he : e.1 = p <;> simp [lookupPath, he, ih]

theorem lookupPath_unlinkAt_self (s : State) (p : Path) :
    lookupPath (unlinkAt s p) p = none := by
  simp [unlinkAt, lookupPath_keyFilter]

theorem lookupPath_unlinkAt_ne (s : State) (p r : Path) (h : r ≠ p) :
    lookupPath (unlinkAt s p) r = lookupPath s r := by
  simp [unlinkAt, lookupPath_keyFilter, h]

theorem lookupPath_setEntry_self (s : State) (p : Path) (o : FsObj) :
    lookupPath (setEntry s p o) p = some o := by
  simp [setEntry, lookupPath_append, lookupPath_unlinkAt_self, lookupPath]

theorem lookupPath_setEntry_ne (s : State) (p : Path) (o : FsObj) (r : Path)
    (h : r ≠ p) :
    lookupPath (setEntry s p o) r = lookupPath s r := by
  simp [setEntry, lookupPath_append, lookupPath_unlinkAt_ne s p r h, lookupPath,
    Ne.symm h]
  cases lookupPath s r <;> simp

theorem lookupPath_rmtreeAt_self (s : State) (p : Path) :
    lookupPath (rmtreeAt s p) p = none := by
  simp [rmtreeAt, lookupPath_keyFilter, isPathUnder_refl]

theorem resolveKind_mono_fuel (s : State) :
    ∀ fuel fuel' p o, fuel ≤ fuel' → resolveKind s fuel p = some o →
      resolveKind s fuel' p = some o := by
  intro fuel
  induction fuel with
  | zero => intro fuel' p o _ h; simp [resolveKind] at h
  | succ f ih =>
    intro fuel' p o hle h
    obtain ⟨f', rfl⟩ : ∃ f', fuel' = f' + 1 := ⟨fuel' - 1, by omega⟩
    have hf : f ≤ f' := by omega
    cases hl : lookupPath s p with
    | none => simp [resolveKind, hl] at h
    | some o' =>
      cases o' with
      | symlink t =>
        simp only [resolveKind, hl] at h ⊢
        exact ih f' t o hf h
      | dir => simpa [resolveKind, hl] using by simpa [resolveKind, hl] using h
      | file ls => simpa [resolveKind, hl] using by simpa [resolveKind, hl] using h
      | archive ms => simpa [resolveKind, hl] using by simpa [resolveKind, hl] using h

theorem resolveKind_keyFilter (q : Path → Bool) (s : State) :
    ∀ fuel p o, resolveKind (keyFilter q s) fuel p = some o →
      resolveKind s fuel p = some o := by
  intro fuel
  induction fuel with
  | zero => intro p o h; simp [resolveKind] at h
  | succ f ih =>
    intro p o h
    rw [resolveKind, lookupPath_keyFilter] at h
    cases hq : q p with
    | false => simp [hq] at h
    | true =>
      simp only [hq, if_pos rfl] at h
      cases hl : lookupPath s p with
      | none => rw [hl] at h; exact absurd h (by simp)
      | some o' =>
        rw [hl] at h
        cases o' with
        | symlink t => exact by simp only [resolveKind, hl]; exact ih t o h
        | dir => simpa [resolveKind, hl] using h
        | file ls => simpa [resolveKind, hl] using h
        | archive ms => simpa [resolveKind, hl] using h

theorem pathIsFile_keyFilter (q : Path → Bool) (s : State) (p : Path)
    (h : pathIsFile (keyFilter q s) p = true) : pathIsFile s p = true := by
  unfold pathIsFile resolved at h ⊢
  cases ho : resolveKind (keyFilter q s) ((keyFilter q s).length + 1) p with
  | none => rw [ho] at h; simp [Option.any] at h
  | some o =>
    rw [ho] at h
    have h1 : resolveKind (keyFilter q s) (s.length + 1) p = some o :=
      resolveKind_mono_fuel _ _ _ _ _ (by have := keyFilter_length_le q s; omega) ho
    have h2 : resolveKind s (s.length + 1) p = some o :=
      resolveKind_keyFilter q s _ p o h1
    rw [h2]
    exact h

/-! ### Cleaner conditions and idempotence -/

/-- The condition under which the directory pass changes the state at `p`. -/
def condDir (s : State) (p : Path) : Bool := (lookupPath s p).any isDirObj

/-- The condition under which the file pass removes the entry at `p`. -/
def condFile (s : State) (p : Path) : Bool := pathIsFile s p

/-- The condition under which the symlink pass unlinks `p`. -/
def condLink (s : State) (p : Path) : Bool := (lookupPath s p).any isSymlinkObj

/-- Every cleaner pass either leaves the state alone or keeps a subset of
the entries selected by a predicate on the path. -/
def RemStep (f : State → Path → State) : Prop :=
  ∀ s p, f s p = s ∨ ∃ q, f s p = keyFilter q s

theorem remStep_removeDirStep : RemStep removeDirStep := by
  intro s p
  by_cases h : (lookupPath s p).any isDirObj = true
  · exact Or.inr ⟨fun r => ! isPathUnder p r, by simp [removeDirStep, h, rmtreeAt]⟩
  · exact Or.inl (by simp [removeDirStep, h])

theorem remStep_removeFileStep : RemStep removeFileStep := by
  intro s p
  by_cases h : pathIsFile s p = true
  · exact Or.inr ⟨fun r => ! decide (r = p), by simp [removeFileStep, h, unlinkAt]⟩
  · exact Or.inl (by simp [removeFileStep, h])

theorem remStep_removeSymlinkStep : RemStep removeSymlinkStep := by
  intro s p
  by_cases h : (lookupPath s p).any isSymlinkObj = true
  · exact Or.inr ⟨fun r => ! decide (r = p),
      by simp [removeSymlinkStep, removeSymlinkLogged, h, unlinkAt]⟩
  · exact Or.inl (by simp [removeSymlinkStep, removeSymlinkLogged, h])

theorem condDir_keyFilter (q : Path → Bool) (s : State) (p : Path)
    (h : condDir (keyFilter q s) p = true) : condDir s p = true := by
  unfold condDir at h ⊢
  rw [lookupPath_keyFilter] at h
  cases hq : q p
  · rw [hq] at h; simp [Option.any] at h
  · rw [hq] at h; simpa using h

theorem condLink_keyFilter (q : Path → Bool) (s : State) (p : Path)
    (h : condLink (keyFilter q s) p = true) : condLink s p = true := by
  unfold condLink at h ⊢
  rw [lookupPath_keyFilter] at h
  cases hq : q p
  · rw [hq] at h; simp [Option.any] at h
  · rw [hq] at h; simpa using h

theorem condFile_keyFilter (q : Path → Bool) (s : State) (p : Path)
    (h : condFile (keyFilter q s) p = true) : condFile s p = true :=
  pathIsFile_keyFilter q s p h

theorem cond_false_step {C : State → Path → Bool} {f : State → Path → State}
    (hf : RemStep f)
    (hC : ∀ q s p, C (keyFilter q s) p = true → C s p = true)
    (s : State) (a p : Path) (h : C s p = false) : C (f s a) p = false := by
  rcases hf s a with he | ⟨q, he⟩
  · rw [he]; exact h
  · rw [he]
    cases hcf : C (keyFilter q s) p
    · rfl
    · exact absurd (hC q s p hcf) (by simp [h])

theorem cond_false_foldl {C : State → Path → Bool} {f : State → Path → State}
    (hf : RemStep f)
    (hC : ∀ q s p, C (keyFilter q s) p = true → C s p = true) :
    ∀ (l : List Path) (s : State) (p : Path),
      C s p = false → C (l.foldl f s) p = false := by
  intro l
  induction l with
  | nil => intro s p h; simpa using h
  | cons a t ih =>
    intro s p h
    simp only [List.foldl_cons]
    exact ih (f s a) p (cond_false_step hf hC s a p h)

theorem cond_false_foldl_mem {C : State → Path → Bool} {f : State → Path → State}
    (hf : RemStep f)
    (hC : ∀ q s p, C (keyFilter q s) p = true → C s p = true)
    (hpost : ∀ s p, C (f s p) p = false) :
    ∀ (l : List Path) (s : State) (p : Path),
      p ∈ l → C (l.foldl f s) p = false := by
  intro l
  induction l with
  | nil => intro s p h; cases h
  | cons a t ih =>
    intro s p hm
    simp only [List.foldl_cons]
    rcases List.mem_cons.mp hm with rfl | hm'
    · exact cond_false_foldl hf hC t (f s p) p (hpost s p)
    · exact ih (f s a) p hm'

theorem condDir_post (s : State) (p : Path) :
    condDir (removeDirStep s p) p = false := by
  unfold removeDirStep
  cases h : (lookupPath s p).any isDirObj
  · simp [h, condDir]
  · simp [h, condDir, lookupPath_rmtreeAt_self, Option.any]

theorem condFile_post (s : State) (p : Path) :
    condFile (removeFileStep s p) p = false := by
  unfold removeFileStep
  cases h : pathIsFile s p
  · simp [h, condFile]
  · simp only [h, if_true]
    unfold condFile pathIsFile resolved
    simp [resolveKind, lookupPath_unlinkAt_self, Option.any]

theorem condLink_post (s : State) (p : Path) :
    condLink (removeSymlinkStep s p) p = false := by
  unfold removeSymlinkStep removeSymlinkLogged
  cases h : (lookupPath s p).any isSymlinkObj
  · simp [h, condLink]
  · simp [h, condLink, lookupPath_unlinkAt_self, Option.any]

theorem removeDirStep_id (s : State) (p : Path) (h : condDir s p = false) :
    removeDirStep s p = s := by
  unfold condDir at h
  simp [removeDirStep, h]

theorem removeFileStep_id (s : State) (p : Path) (h : condFile s p = false) :
    removeFileStep s p = s := by
  unfold condFile at h
  simp [removeFileStep, h]

theorem removeSymlinkStep_id (s : State) (p : Path) (h : condLink s p = false) :
    removeSymlinkStep s p = s := by
  unfold condLink at h
  simp [removeSymlinkStep, removeSymlinkLogged, h]

theorem foldl_noop {C : State → Path → Bool} {f : State → Path → State}
    (hid : ∀ s p, C s p = false → f s p = s) :
    ∀ (l : List Path) (s : State), (∀ p ∈ l, C s p = false) → l.foldl f s = s := by
  intro l
  induction l with
  | nil => intro s _; rfl
  | cons a t ih =>
    intro s h
    have ha : f s a = s := hid s a (h a (by simp))
    simp only [List.foldl_cons, ha]
    exact ih s (fun p hp => h p (by simp [hp]))

theorem clean_post_dir (s : State) (p : Path) (hp : p ∈ DIRECTORIES_TO_REMOVE) :
    condDir (clean_environment s) p = false := by
  unfold clean_environment
  apply cond_false_foldl remStep_removeSymlinkStep condDir_keyFilter
  apply cond_false_foldl remStep_removeFileStep condDir_keyFilter
  exact cond_false_foldl_mem remStep_removeDirStep condDir_keyFilter condDir_post _ _ _ hp

theorem clean_post_file (s : State) (p : Path) (hp : p ∈ FILES_TO_REMOVE) :
    condFile (clean_environment s) p = false := by
  unfold clean_environment
  apply cond_false_foldl remStep_removeSymlinkStep condFile_keyFilter
  exact cond_false_foldl_mem remStep_removeFileStep condFile_keyFilter condFile_post _ _ _ hp

theorem clean_post_link (s : State) (p : Path) (hp : p ∈ SYMLINKS_TO_REMOVE) :
    condLink (clean_environment s) p = false := by
  unfold clean_environment
  exact cond_false_foldl_mem remStep_removeSymlinkStep condLink_keyFilter condLink_post _ _ _ hp

/-- C5: `clean_environment` is idempotent.  A second invocation on the
state left by a first one performs no removal at all (every pass's action
condition is false at every managed path, so nothing can fail) and leaves
the workspace state identical. -/
theorem clean_environment_idempotent (s : State) :
    clean_environment (clean_environment s) = clean_environment s ∧
    (∀ p, p ∈ DIRECTORIES_TO_REMOVE → condDir (clean_environment s) p = false) ∧
    (∀ p, p ∈ FILES_TO_REMOVE → condFile (clean_environment s) p = false) ∧
    (∀ p, p ∈ SYMLINKS_TO_REMOVE → condLink (clean_environment s) p = false) := by
  refine ⟨?_, fun p hp => clean_post_dir s p hp, fun p hp => clean_post_file s p hp,
    fun p hp => clean_post_link s p hp⟩
  show SYMLINKS_TO_REMOVE.foldl removeSymlinkStep
      (FILES_TO_REMOVE.foldl removeFileStep
        (DIRECTORIES_TO_REMOVE.foldl removeDirStep (clean_environment s)))
    = clean_environment s
  rw [foldl_noop removeDirStep_id _ _ (fun p hp => clean_post_dir s p hp),
    foldl_noop removeFileStep_id _ _ (fun p hp => clean_post_file s p hp),
    foldl_noop removeSymlinkStep_id _ _ (fun p hp => clean_post_link s p hp)]

/-- Witness for C5 at a concrete half-built workspace state. -/
theorem clean_environment_idempotent_witness :
    clean_environment (clean_environment
        [ (["compose.yaml".toList], FsObj.symlink OSS_COMPOSE_FILE),
          ([".env".toList], FsObj.file ["SALT_VERSION=3006.9".toList]),
          (["data".toList, "redis".toList], FsObj.dir),
          (["data".toList, "redis".toList, "redis.conf".toList], FsObj.file []) ])
      = clean_environment
        [ (["compose.yaml".toList], FsObj.symlink OSS_COMPOSE_FILE),
          ([".env".toList], FsObj.file ["SALT_VERSION=3006.9".toList]),
          (["data".toList, "redis".toList], FsObj.dir),
          (["data".toList, "redis".toList, "redis.conf".toList], FsObj.file []) ] ∧
    condFile (clean_environment
        [ (["compose.yaml".toList], FsObj.symlink OSS_COMPOSE_FILE),
          ([".env".toList], FsObj.file ["SALT_VERSION=3006.9".toList]),
          (["data".toList, "redis".toList], FsObj.dir),
          (["data".toList, "redis".toList, "redis.conf".toList], FsObj.file []) ])
      [".env".toList] = false :=
  ⟨(clean_environment_idempotent _).1,
    (clean_environment_idempotent _).2.2.1 [".env".toList] (by decide)⟩

/-! ### Dict (`updEntry` / `dictUpdate`) lemmas -/

theorem lookupKey_append (m n : List (Str × Str)) (k : Str) :
    lookupKey (m ++ n) k =
      match lookupKey m k with
      | some w => some w
      | none => lookupKey n k := by
  induction m with
  | nil => simp [lookupKey]
  | cons e t ih => by_cases he : e.1 = k <;> simp [lookupKey, he, ih]

theorem lookupKey_isSome_of_any (m : List (Str × Str)) (k : Str)
    (h : m.any (fun e => decide (e.1 = k)) = true) :
    ∃ w, lookupKey m k = some w := by
  induction m with
  | nil => simp at h
  | cons e t ih =>
    by_cases he : e.1 = k
    · exact ⟨e.2, by simp [lookupKey, he]⟩
    · rw [List.any_cons, decide_eq_false he, Bool.false_or] at h
      obtain ⟨w, hw⟩ := ih h
      exact ⟨w, by simp [lookupKey, he, hw]⟩

theorem lookupKey_none_of_not_any (m : List (Str × Str)) (k : Str)
    (h : m.any (fun e => decide (e.1 = k)) = false) :
    lookupKey m k = none := by
  induction m with
  | nil => rfl
  | cons e t ih =>
    simp only [List.any_cons, Bool.or_eq_false_iff] at h
    have he : e.1 ≠ k := by
      intro hc
      simp [hc] at h
    simp [lookupKey, he, ih h.2]

theorem lookupKey_map_upd (m : List (Str × Str)) (k' v k : Str) :
    lookupKey (m.map (fun e => if e.1 = k' then (k', v) else e)) k =
      (lookupKey m k).map (fun w => if k = k' then v else w) := by
  induction m with
  | nil => simp [lookupKey]
  | cons e t ih =>
    by_cases he' : e.1 = k'
    · by_cases hk : k = k'
      · subst hk
        simp [lookupKey, he', ih]
      · have hk' : ¬ k' = k := Ne.symm hk
        have hek : e.1 ≠ k := by
          rw [he']
          exact hk'
        simp [lookupKey, he', hek, ih, hk, hk']
    · by_cases hek : e.1 = k
      · have hk : ¬ k = k' := by rw [← hek]; exact he'
        simp [lookupKey, he', hek, hk]
      · simp [lookupKey, he', hek, ih]

theorem lookupKey_updEntry (m : List (Str × Str)) (k' v k : Str) :
    lookupKey (updEntry m k' v) k = if k = k' then some v else lookupKey m k := by
  unfold updEntry
  cases ha : m.any (fun e => decide (e.1 = k'))
  · rw [if_neg (by simp [ha])]
    rw [lookupKey_append]
    by_cases hk : k = k'
    · subst hk
      rw [lookupKey_none_of_not_any m k ha]
      simp [lookupKey]
    · cases hl : lookupKey m k
      · simp [lookupKey, hk, Ne.symm hk, hl]
      · simp [hl, hk]
  · rw [if_pos (by simp [ha])]
    rw [lookupKey_map_upd]
    by_cases hk : k = k'
    · subst hk
      obtain ⟨w, hw⟩ := lookupKey_isSome_of_any m k ha
      simp [hw]
    · cases hl : lookupKey m k <;> simp [hl, hk]

theorem lookupKey_dictUpdate (m n : List (Str × Str)) (k : Str) :
    lookupKey (dictUpdate m n) k =
      match revLookup n k with
      | some w => some w
      | none => lookupKey m k := by
  induction n generalizing m with
  | nil => simp [dictUpdate, revLookup, lookupKey]
  | cons e t ih =>
    show lookupKey (dictUpdate (updEntry m e.1 e.2) t) k = _
    rw [ih]
    unfold revLookup
    rw [List.reverse_cons, lookupKey_append]
    cases hr : lookupKey t.reverse k
    · simp only [hr]
      rw [lookupKey_updEntry]
      by_cases hk : k = e.1
      · simp [lookupKey, hk]
      · simp [lookupKey, hk, Ne.symm hk]
    · simp [hr]

/-- Pairs found in `updEntry m k v` come from `m` or are the new pair. -/
theorem mem_updEntry (m : List (Str × Str)) (k v : Str) (e : Str × Str)
    (h : e ∈ updEntry m k v) : e ∈ m ∨ e = (k, v) := by
  unfold updEntry at h
  by_cases ha : m.any (fun x => decide (x.1 = k)) = true
  · rw [if_pos ha] at h
    obtain ⟨a, ham, hae⟩ := List.mem_map.mp h
    by_cases hak : a.1 = k
    · right; rw [← hae]; simp [hak]
    · left; rw [← hae]; simpa [hak] using ham
  · rw [if_neg ha] at h
    rcases List.mem_append.mp h with hm | hs
    · exact Or.inl hm
    · exact Or.inr (by simpa using hs)

theorem mem_dictUpdate (m n : List (Str × Str)) (e : Str × Str)
    (h : e ∈ dictUpdate m n) : e ∈ m ∨ e ∈ n := by
  induction n generalizing m with
  | nil => exact Or.inl h
  | cons a t ih =>
    rcases ih (updEntry m a.1 a.2) h with hm | ht
    · rcases mem_updEntry m a.1 a.2 e hm with hm' | he
      · exact Or.inl hm'
      · exact Or.inr (by simp [he])
    · exact Or.inr (List.mem_cons_of_mem a ht)

def keysOf (m : List (Str × Str)) : List Str := m.map (fun e => e.1)

def NodupKeys (m : List (Str × Str)) : Prop := (keysOf m).Nodup

theorem keysOf_map_upd (m : List (Str × Str)) (k v : Str) :
    keysOf (m.map (fun e => if e.1 = k then (k, v) else e)) = keysOf m := by
  induction m with
  | nil => rfl
  | cons e t ih =>
    by_cases he : e.1 = k <;> simp [keysOf, he, ih] <;>
      simpa [keysOf] using ih

theorem not_mem_keysOf_of_not_any (m : List (Str × Str)) (k : Str)
    (h : m.any (fun e => decide (e.1 = k)) = false) : k ∉ keysOf m := by
  intro hc
  obtain ⟨e, hem, hek⟩ := List.mem_map.mp hc
  have : m.any (fun e => decide (e.1 = k)) = true :=
    List.any_eq_true.mpr ⟨e, hem, by simp [hek]⟩
  simp [this] at h

theorem nodupKeys_updEntry (m : List (Str × Str)) (k v : Str)
    (h : NodupKeys m) : NodupKeys (updEntry m k v) := by
  unfold updEntry
  cases ha : m.any (fun e => decide (e.1 = k))
  · rw [if_neg (by simp [ha])]
    unfold NodupKeys at h ⊢
    have : keysOf (m ++ [(k, v)]) = keysOf m ++ [k] := by simp [keysOf]
    rw [this, List.nodup_append]
    exact ⟨h, List.nodup_singleton k,
      fun a ham hak => (not_mem_keysOf_of_not_any m k ha)
        (by simpa [List.mem_singleton.mp hak] using ham)⟩
  · rw [if_pos (by simp [ha])]
    unfold NodupKeys
    rw [keysOf_map_upd]
    exact h

theorem nodupKeys_dictUpdate (m n : List (Str × Str)) (h : NodupKeys m) :
    NodupKeys (dictUpdate m n) := by
  induction n generalizing m with
  | nil => exact h
  | cons a t ih => exact ih (updEntry m a.1 a.2) (nodupKeys_updEntry m a.1 a.2 h)

theorem updEntry_cons_ne (m : List (Str × Str)) (k0 v0 k v : Str) (h : k ≠ k0) :
    updEntry ((k0, v0) :: m) k v = (k0, v0) :: updEntry m k v := by
  unfold updEntry
  have hd : decide (k0 = k) = false := decide_eq_false (Ne.symm h)
  simp only [List.any_cons, hd, Bool.false_or]
  cases ha : m.any (fun e => decide (e.1 = k))
  · simp [ha, Ne.symm h]
  · simp [ha, Ne.symm h]

theorem dictUpdate_cons_not_mem (m n : List (Str × Str)) (k0 v0 : Str)
    (h : k0 ∉ keysOf n) :
    dictUpdate ((k0, v0) :: m) n = (k0, v0) :: dictUpdate m n := by
  induction n generalizing m with
  | nil => rfl
  | cons a t ih =>
    have hk : a.1 ≠ k0 := by
      intro hc
      apply h
      exact List.mem_map.mpr ⟨a, List.mem_cons_self a t, hc⟩
    show dictUpdate (updEntry ((k0, v0) :: m) a.1 a.2) t = _
    rw [updEntry_cons_ne m k0 v0 a.1 a.2 hk]
    apply ih (updEntry m a.1 a.2)
    intro hc
    apply h
    simp only [keysOf, List.map_cons, List.mem_cons]
    exact Or.inr (by simpa [keysOf] using hc)

theorem dictUpdate_nil_self (m : List (Str × Str)) (h : NodupKeys m) :
    dictUpdate [] m = m := by
  induction m with
  | nil => rfl
  | cons e t ih =>
    unfold NodupKeys keysOf at h
    simp only [List.map_cons, List.nodup_cons] at h
    show dictUpdate (updEntry [] e.1 e.2) t = e :: t
    have h1 : updEntry [] e.1 e.2 = [(e.1, e.2)] := rfl
    rw [h1, show [(e.1, e.2)] = (e.1, e.2) :: ([] : List (Str × Str)) from rfl,
      dictUpdate_cons_not_mem [] t e.1 e.2 h.1, ih h.2]

/-! ### `strip` / parse / render round trip -/

theorem stripStr_eq_rdrop (l : Str) :
    stripStr l = List.rdropWhile Char.isWhitespace (l.dropWhile Char.isWhitespace) := rfl

theorem dropWhile_stripStr (l : Str) :
    (stripStr l).dropWhile Char.isWhitespace = stripStr l := by
  rw [stripStr_eq_rdrop, List.dropWhile_eq_self_iff]
  intro hl
  have hu : (l.dropWhile Char.isWhitespace).dropWhile Char.isWhitespace
      = l.dropWhile Char.isWhitespace := List.dropWhile_idempotent _ _
  have hpre := List.rdropWhile_prefix Char.isWhitespace (l.dropWhile Char.isWhitespace)
  have hlen : 0 < (l.dropWhile Char.isWhitespace).length :=
    Nat.lt_of_lt_of_le hl hpre.length_le
  have hhead := (List.dropWhile_eq_self_iff.mp hu) hlen
  simp only [List.get_eq_getElem] at hhead ⊢
  rw [hpre.getElem hl]
  exact hhead

theorem stripStr_idem (l : Str) : stripStr (stripStr l) = stripStr l := by
  rw [stripStr_eq_rdrop (stripStr l), dropWhile_stripStr l, stripStr_eq_rdrop l,
    List.rdropWhile_idempotent]

theorem mem_of_mem_stripStr (c : Char) (l : Str) (h : c ∈ stripStr l) : c ∈ l := by
  unfold stripStr at h
  rw [List.mem_reverse] at h
  have h2 := (List.dropWhile_sublist Char.isWhitespace).subset h
  rw [List.mem_reverse] at h2
  exact (List.dropWhile_sublist Char.isWhitespace).subset h2

theorem mem_dropWhile_of_neg (p : Char → Bool) (l : Str) (c : Char)
    (hc : c ∈ l) (hp : p c = false) : c ∈ l.dropWhile p := by
  induction l with
  | nil => cases hc
  | cons a t ih =>
    cases hpa : p a
    · rw [List.dropWhile_cons_of_neg (by simp [hpa])]
      exact hc
    · rw [List.dropWhile_cons_of_pos (by simp [hpa])]
      rcases List.mem_cons.mp hc with rfl | hct
      · simp [hp] at hpa
      · exact ih hct

theorem mem_stripStr_of_neg_ws (c : Char) (l : Str) (hc : c ∈ l)
    (hw : Char.isWhitespace c = false) : c ∈ stripStr l := by
  unfold stripStr
  rw [List.mem_reverse]
  apply mem_dropWhile_of_neg _ _ _ _ hw
  rw [List.mem_reverse]
  exact mem_dropWhile_of_neg _ _ _ hc hw

theorem contains_iff_mem_char (l : Str) (c : Char) : l.contains c = true ↔ c ∈ l := by
  rw [List.contains_eq_any_beq, List.any_eq_true]
  constructor
  · rintro ⟨x, hx, hbeq⟩
    rw [beq_iff_eq] at hbeq
    rw [hbeq]
    exact hx
  · intro h
    exact ⟨c, h, by simp⟩

theorem takeWhile_key_append (k v : Str) (hk : '=' ∉ k) :
    (k ++ '=' :: v).takeWhile (fun c => decide (c ≠ '=')) = k := by
  induction k with
  | nil =>
    simp only [List.nil_append]
    rw [List.takeWhile_cons_of_neg (by simp)]
  | cons c t ih =>
    have hc : ¬ c = '=' := by
      intro h
      apply hk
      rw [← h]
      exact List.mem_cons_self c t
    simp only [List.cons_append]
    rw [List.takeWhile_cons_of_pos (by simp [hc])]
    rw [ih (fun hm => hk (List.mem_cons_of_mem c hm))]

theorem dropWhile_key_append (k v : Str) (hk : '=' ∉ k) :
    (k ++ '=' :: v).dropWhile (fun c => decide (c ≠ '=')) = '=' :: v := by
  induction k with
  | nil =>
    simp only [List.nil_append]
    rw [List.dropWhile_cons_of_neg (by simp)]
  | cons c t ih =>
    have hc : ¬ c = '=' := by
      intro h
      apply hk
      rw [← h]
      exact List.mem_cons_self c t
    simp only [List.cons_append]
    rw [List.dropWhile_cons_of_pos (by simp [hc])]
    exact ih (fun hm => hk (List.mem_cons_of_mem c hm))

theorem dropWhile_eq_cons_of_mem (t : Str) (h : '=' ∈ t) :
    t.dropWhile (fun c => decide (c ≠ '=')) =
      '=' :: (t.dropWhile (fun c => decide (c ≠ '='))).tail := by
  induction t with
  | nil => cases h
  | cons c r ih =>
    by_cases hc : c = '='
    · subst hc
      rw [List.dropWhile_cons_of_neg (by simp)]
      rfl
    · rcases List.mem_cons.mp h with he | hr
      · exact absurd he.symm hc
      · rw [List.dropWhile_cons_of_pos (by simp [hc])]
        exact ih hr

/-- An entry `(key, value)` that survives the `KEY=VALUE` serialization
round trip: no `=` in the key, no newline in either part, and no
whitespace that `strip()` would eat at the ends of the rendered line. -/
def wfEntry (e : Str × Str) : Prop :=
  '=' ∉ e.1 ∧ '\n' ∉ e.1 ∧ '\n' ∉ e.2 ∧
    stripStr (e.1 ++ '=' :: e.2) = e.1 ++ '=' :: e.2

instance : DecidablePred wfEntry := by
  intro e
  unfold wfEntry
  infer_instance

theorem parseEnvLine_render (m : List (Str × Str)) (e : Str × Str)
    (hwf : wfEntry e) :
    parseEnvLine m (e.1 ++ '=' :: e.2) = updEntry m e.1 e.2 := by
  obtain ⟨h1, _, _, h4⟩ := hwf
  have hc : (e.1 ++ '=' :: e.2).contains '=' = true :=
    (contains_iff_mem_char _ _).mpr (by simp)
  unfold parseEnvLine
  rw [if_pos hc, h4, takeWhile_key_append e.1 e.2 h1, dropWhile_key_append e.1 e.2 h1]
  rfl

theorem foldl_parseEnvLine_render (m : List (Str × Str)) :
    ∀ acc : List (Str × Str), (∀ e ∈ m, wfEntry e) →
      (m.map (fun e => e.1 ++ '=' :: e.2)).foldl parseEnvLine acc =
        m.foldl (fun a e => updEntry a e.1 e.2) acc := by
  induction m with
  | nil => intro acc _; rfl
  | cons e t ih =>
    intro acc h
    simp only [List.map_cons, List.foldl_cons]
    rw [parseEnvLine_render acc e (h e (by simp))]
    exact ih _ (fun x hx => h x (by simp [hx]))

theorem parseEnvLines_render (m : List (Str × Str)) (hwf : ∀ e ∈ m, wfEntry e)
    (hnd : NodupKeys m) : parseEnvLines (renderEnv m) = m := by
  unfold parseEnvLines renderEnv
  rw [foldl_parseEnvLine_render m [] hwf]
  exact dictUpdate_nil_self m hnd

theorem wfEntry_parseEnvLine (m : List (Str × Str)) (line : Str)
    (hl : '\n' ∉ line) (hm : ∀ e ∈ m, wfEntry e) :
    ∀ e ∈ parseEnvLine m line, wfEntry e := by
  intro e he
  unfold parseEnvLine at he
  by_cases hc : line.contains '=' = true
  · rw [if_pos hc] at he
    rcases mem_updEntry _ _ _ _ he with hm' | rfl
    · exact hm e hm'
    · have hmem : '=' ∈ stripStr line :=
        mem_stripStr_of_neg_ws '=' line ((contains_iff_mem_char _ _).mp hc) (by decide)
      have hsplit : (stripStr line).takeWhile (fun c => decide (c ≠ '=')) ++
          '=' :: ((stripStr line).dropWhile (fun c => decide (c ≠ '='))).tail
          = stripStr line := by
        rw [← dropWhile_eq_cons_of_mem (stripStr line) hmem]
        exact List.takeWhile_append_dropWhile _ _
      refine ⟨?_, ?_, ?_, ?_⟩
      · intro hin
        have := List.mem_takeWhile_imp hin
        simp at this
      · intro hin
        exact hl (mem_of_mem_stripStr _ _
          ((List.takeWhile_sublist _).subset hin))
      · intro hin
        exact hl (mem_of_mem_stripStr _ _
          ((List.dropWhile_sublist _).subset ((List.tail_sublist _).subset hin)))
      · rw [hsplit, stripStr_idem]
  · rw [if_neg hc] at he
    exact hm e he

theorem wfEntry_foldl_parse (ls : List Str) :
    ∀ acc : List (Str × Str), (∀ l ∈ ls, '\n' ∉ l) → (∀ e ∈ acc, wfEntry e) →
      ∀ e ∈ ls.foldl parseEnvLine acc, wfEntry e := by
  induction ls with
  | nil => intro acc _ hacc; exact hacc
  | cons l t ih =>
    intro acc hls hacc
    simp only [List.foldl_cons]
    exact ih _ (fun x hx => hls x (by simp [hx]))
      (wfEntry_parseEnvLine acc l (hls l (by simp)) hacc)

theorem wfEntry_parseEnvLines (ls : List Str) (hls : ∀ l ∈ ls, '\n' ∉ l) :
    ∀ e ∈ parseEnvLines ls, wfEntry e :=
  wfEntry_foldl_parse ls [] hls (by intro e he; cases he)

theorem nodupKeys_foldl_parse (ls : List Str) :
    ∀ acc : List (Str × Str), NodupKeys acc →
      NodupKeys (ls.foldl parseEnvLine acc) := by
  induction ls with
  | nil => intro acc h; exact h
  | cons l t ih =>
    intro acc h
    simp only [List.foldl_cons]
    apply ih
    unfold parseEnvLine
    by_cases hc : l.contains '=' = true
    · rw [if_pos hc]
      exact nodupKeys_updEntry _ _ _ h
    · rw [if_neg hc]
      exact h

theorem nodupKeys_parseEnvLines (ls : List Str) : NodupKeys (parseEnvLines ls) :=
  nodupKeys_foldl_parse ls [] (by simp [NodupKeys, keysOf])

/-! ### `write_env_file` specification -/

theorem resolveKind_succ (s : State) (fuel : Nat) (p : Path) :
    resolveKind s (fuel + 1) p =
      match lookupPath s p with
      | some (.symlink t) => resolveKind s fuel t
      | o => o := rfl

theorem finalPath_succ (s : State) (fuel : Nat) (p : Path) :
    finalPath s (fuel + 1) p =
      match lookupPath s p with
      | some (.symlink t) => finalPath s fuel t
      | _ => p := rfl

theorem resolved_nonlink (s : State) (p : Path) (o : FsObj)
    (h : lookupPath s p = some o) (ho : isSymlinkObj o = false) :
    resolved s p = some o := by
  unfold resolved
  rw [resolveKind_succ, h]
  cases o with
  | symlink t => simp [isSymlinkObj] at ho
  | dir => rfl
  | file ls => rfl
  | archive ms => rfl

theorem resolved_of_none (s : State) (p : Path) (h : lookupPath s p = none) :
    resolved s p = none := by
  unfold resolved
  rw [resolveKind_succ, h]

theorem finalPath_nonlink (s : State) (fuel : Nat) (p : Path)
    (h : ∀ t, lookupPath s p ≠ some (.symlink t)) :
    finalPath s (fuel + 1) p = p := by
  rw [finalPath_succ]
  cases hl : lookupPath s p with
  | none => rfl
  | some o =>
    cases o with
    | symlink t => exact absurd hl (h t)
    | dir => rfl
    | file ls => rfl
    | archive ms => rfl

/-- `write_env_file` when `.env` is a regular file: the merged dict is
rendered back over it and the call succeeds. -/
theorem write_env_file_file (v : Str) (ent : Bool)
    (creds : Option (List (Str × Str))) (pp pr : Str) (s : State) (ls : List Str)
    (h : lookupPath s ENV_FILE = some (.file ls)) :
    write_env_file v ent creds pp pr s =
      .ok (setEntry s ENV_FILE (.file (renderEnv (dictUpdate (parseEnvLines ls)
          (computeEnvVars v ent creds pp pr s).vars))),
        computeEnvVars v ent creds pp pr s) := by
  have hres : resolved s ENV_FILE = some (.file ls) := resolved_nonlink s _ _ h rfl
  have hex : pathExists s ENV_FILE = true := by simp [pathExists, hres]
  have htgt : finalPath s (s.length + 1) ENV_FILE = ENV_FILE :=
    finalPath_nonlink s s.length ENV_FILE (fun t hc => by rw [h] at hc; cases hc)
  simp only [write_env_file, hex, if_true, hres, htgt, h]

/-- `write_env_file` when no `.env` exists yet: the fresh dict alone is
written and the call succeeds. -/
theorem write_env_file_none (v : Str) (ent : Bool)
    (creds : Option (List (Str × Str))) (pp pr : Str) (s : State)
    (h : lookupPath s ENV_FILE = none) :
    write_env_file v ent creds pp pr s =
      .ok (setEntry s ENV_FILE (.file (renderEnv
          (dictUpdate [] (computeEnvVars v ent creds pp pr s).vars))),
        computeEnvVars v ent creds pp pr s) := by
  have hres : resolved s ENV_FILE = none := resolved_of_none s _ h
  have hex : pathExists s ENV_FILE = false := by simp [pathExists, hres]
  have htgt : finalPath s (s.length + 1) ENV_FILE = ENV_FILE :=
    finalPath_nonlink s s.length ENV_FILE (fun t hc => by rw [h] at hc; cases hc)
  simp only [write_env_file, hex, Bool.false_eq_true, if_false, htgt, h]

/-- The `KEY=VALUE` mapping currently persisted in `.env`. -/
def persistedMap (s : State) : List (Str × Str) :=
  match lookupPath s ENV_FILE with
  | some (.file ls) => parseEnvLines ls
  | _ => []

/-- C9: the merge law of `write_env_file`.  With a persisted `.env`
present, the call succeeds and writes the pre-existing mapping overlaid
with the freshly computed `env_vars`: keys absent from the fresh dict
keep their old values, fresh keys win, and in particular materializing
twice in the same (OSS) edition with two tool versions preserves every
non-version key of the first run and updates only `SALT_VERSION`. -/
theorem write_env_merge_law (v1 v2 : Str) (ent : Bool)
    (creds : Option (List (Str × Str))) (pp pr : Str) (s : State) (ls : List Str)
    (h : lookupPath s ENV_FILE = some (.file ls))
    (hls : ∀ l ∈ ls, '\n' ∉ l)
    (hv1 : wfEntry (SALT_VERSION_KEY, v1)) (hv2 : wfEntry (SALT_VERSION_KEY, v2)) :
    (write_env_file v1 ent creds pp pr s =
      .ok (setEntry s ENV_FILE (.file (renderEnv (dictUpdate (parseEnvLines ls)
          (computeEnvVars v1 ent creds pp pr s).vars))),
        computeEnvVars v1 ent creds pp pr s)) ∧
    (∀ k, revLookup (computeEnvVars v1 ent creds pp pr s).vars k = none →
      lookupKey (dictUpdate (parseEnvLines ls)
          (computeEnvVars v1 ent creds pp pr s).vars) k
        = lookupKey (parseEnvLines ls) k) ∧
    (∀ k w, revLookup (computeEnvVars v1 ent creds pp pr s).vars k = some w →
      lookupKey (dictUpdate (parseEnvLines ls)
          (computeEnvVars v1 ent creds pp pr s).vars) k = some w) ∧
    (∀ s1 c1 s2 c2,
      write_env_file v1 false none pp pr s = .ok (s1, c1) →
      write_env_file v2 false none pp pr s1 = .ok (s2, c2) →
      lookupKey (persistedMap s2) SALT_VERSION_KEY = some v2 ∧
      ∀ k, k ≠ SALT_VERSION_KEY →
        lookupKey (persistedMap s2) k = lookupKey (persistedMap s1) k) := by
  refine ⟨write_env_file_file v1 ent creds pp pr s ls h, ?_, ?_, ?_⟩
  · intro k hk
    rw [lookupKey_dictUpdate, hk]
  · intro k w hk
    rw [lookupKey_dictUpdate, hk]
  · intro s1 c1 s2 c2 hw1 hw2
    have hvars1 : (computeEnvVars v1 false none pp pr s).vars
        = [(SALT_VERSION_KEY, v1)] := rfl
    have e1 := write_env_file_file v1 false none pp pr s ls h
    rw [e1] at hw1
    simp only [Except.ok.injEq, Prod.mk.injEq] at hw1
    have hs1 : s1 = setEntry s ENV_FILE (.file (renderEnv
        (dictUpdate (parseEnvLines ls) [(SALT_VERSION_KEY, v1)]))) := by
      rw [← hw1.1, hvars1]
    have wfP : ∀ e ∈ parseEnvLines ls, wfEntry e := wfEntry_parseEnvLines ls hls
    have ndP : NodupKeys (parseEnvLines ls) := nodupKeys_parseEnvLines ls
    have wfM1 : ∀ e ∈ dictUpdate (parseEnvLines ls) [(SALT_VERSION_KEY, v1)],
        wfEntry e := by
      intro e he
      rcases mem_dictUpdate _ _ e he with hp | hf
      · exact wfP e hp
      · rw [List.mem_singleton.mp hf]
        exact hv1
    have ndM1 : NodupKeys (dictUpdate (parseEnvLines ls) [(SALT_VERSION_KEY, v1)]) :=
      nodupKeys_dictUpdate _ _ ndP
    have hs1look : lookupPath s1 ENV_FILE = some (.file (renderEnv
        (dictUpdate (parseEnvLines ls) [(SALT_VERSION_KEY, v1)]))) := by
      rw [hs1]
      exact lookupPath_setEntry_self _ _ _
    have hround1 : parseEnvLines (renderEnv
        (dictUpdate (parseEnvLines ls) [(SALT_VERSION_KEY, v1)]))
        = dictUpdate (parseEnvLines ls) [(SALT_VERSION_KEY, v1)] :=
      parseEnvLines_render _ wfM1 ndM1
    have persisted1 : persistedMap s1
        = dictUpdate (parseEnvLines ls) [(SALT_VERSION_KEY, v1)] := by
      unfold persistedMap
      rw [hs1look]
      exact hround1
    have hvars2 : (computeEnvVars v2 false none pp pr s1).vars
        = [(SALT_VERSION_KEY, v2)] := rfl
    have e2 := write_env_file_file v2 false none pp pr s1 _ hs1look
    rw [e2] at hw2
    simp only [Except.ok.injEq, Prod.mk.injEq] at hw2
    have hs2 : s2 = setEntry s1 ENV_FILE (.file (renderEnv
        (dictUpdate (dictUpdate (parseEnvLines ls) [(SALT_VERSION_KEY, v1)])
          [(SALT_VERSION_KEY, v2)]))) := by
      rw [← hw2.1, hvars2, hround1]
    have wfM2 : ∀ e ∈ dictUpdate (dictUpdate (parseEnvLines ls)
        [(SALT_VERSION_KEY, v1)]) [(SALT_VERSION_KEY, v2)], wfEntry e := by
      intro e he
      rcases mem_dictUpdate _ _ e he with hp | hf
      · exact wfM1 e hp
      · rw [List.mem_singleton.mp hf]
        exact hv2
    have ndM2 : NodupKeys (dictUpdate (dictUpdate (parseEnvLines ls)
        [(SALT_VERSION_KEY, v1)]) [(SALT_VERSION_KEY, v2)]) :=
      nodupKeys_dictUpdate _ _ ndM1
    have persisted2 : persistedMap s2
        = dictUpdate (dictUpdate (parseEnvLines ls) [(SALT_VERSION_KEY, v1)])
            [(SALT_VERSION_KEY, v2)] := by
      unfold persistedMap
      rw [hs2, lookupPath_setEntry_self]
      exact parseEnvLines_render _ wfM2 ndM2
    constructor
    · rw [persisted2, lookupKey_dictUpdate]
      have : revLookup [(SALT_VERSION_KEY, v2)] SALT_VERSION_KEY = some v2 := by
        simp [revLookup, lookupKey]
      rw [this]
    · intro k hk
      rw [persisted2, persisted1, lookupKey_dictUpdate]
      have : revLookup [(SALT_VERSION_KEY, v2)] k = none := by
        simp [revLookup, lookupKey, Ne.symm hk]
      rw [this]

/-- Witness for C9: two OSS materializations over a hand-written `.env`
with key `FOO`; the version key ends at the second value. -/
theorem write_env_merge_law_witness :
    lookupKey (persistedMap
        [([".env".toList], FsObj.file ["FOO=bar".toList, "SALT_VERSION=2".toList])])
      SALT_VERSION_KEY = some "2".toList :=
  ((write_env_merge_law "1".toList "2".toList false none [] []
      [([".env".toList], FsObj.file ["FOO=bar".toList])] ["FOO=bar".toList]
      (by decide) (by decide) (by decide) (by decide)).2.2.2
    [([".env".toList], FsObj.file ["FOO=bar".toList, "SALT_VERSION=1".toList])]
    ⟨[(SALT_VERSION_KEY, "1".toList)], false, false, false⟩
    [([".env".toList], FsObj.file ["FOO=bar".toList, "SALT_VERSION=2".toList])]
    ⟨[(SALT_VERSION_KEY, "2".toList)], false, false, false⟩
    (by rfl) (by rfl)).1

/-! ### Claims on the Link Manager, Cleaner logging and Launch Controller -/

/-- C7: `create_symlink` checks the resolved target first: a missing
target is a fatal error with the workspace unchanged and no link created,
and a link is only ever created when the target exists at that moment. -/
theorem create_symlink_no_dangling (target linkName : Path) (s : State) :
    (pathExists s target = false → create_symlink target linkName s = .error s) ∧
    (∀ s', create_symlink target linkName s = .ok (s', LinkResult.created) →
      pathExists s target = true) := by
  constructor
  · intro h
    simp [create_symlink, h]
  · intro s' h
    by_cases he : pathExists s target = true
    · exact he
    · rw [create_symlink, if_neg he] at h
      cases h

/-- Witness for C7: linking against an absent target on an empty
workspace aborts with the state unchanged. -/
theorem create_symlink_no_dangling_witness :
    create_symlink ["oss-compose.yaml".toList] ["compose.yaml".toList] []
      = .error [] :=
  (create_symlink_no_dangling ["oss-compose.yaml".toList]
    ["compose.yaml".toList] []).1 (by decide)

/-- C8 counterexample: the target-existence check runs before the
collision check, so a call whose link path is already occupied but whose
target is missing exits fatally instead of reporting "already present". -/
theorem link_exists_target_missing_cex :
    create_symlink ["oss-compose.yaml".toList] ["compose.yaml".toList]
        [(["compose.yaml".toList], FsObj.file [])]
      = .error [(["compose.yaml".toList], FsObj.file [])] := rfl

/-- C8 amended: when the link path is already occupied (as a symlink or
anything else) AND the target exists, `create_symlink` does nothing,
reports the path as already present without error, and returns the
workspace unchanged; with the target missing the call is fatal instead
(the occupied path is still left untouched, as the error state shows). -/
theorem create_symlink_existing_skip (target linkName : Path) (s : State)
    (ht : pathExists s target = true)
    (hl : (lookupPath s linkName).any isSymlinkObj = true ∨
      pathExists s linkName = true) :
    create_symlink target linkName s = .ok (s, LinkResult.alreadyPresent) := by
  rw [create_symlink, if_pos ht, if_pos]
  rcases hl with hl | hl <;> simp [hl]

/-- Witness for C8 at a concrete state: a regular file occupies the link
name and the target exists. -/
theorem create_symlink_existing_skip_witness :
    create_symlink ["oss-compose.yaml".toList] ["compose.yaml".toList]
        [(["compose.yaml".toList], FsObj.file []),
         (["oss-compose.yaml".toList], FsObj.file [])]
      = .ok ([(["compose.yaml".toList], FsObj.file []),
         (["oss-compose.yaml".toList], FsObj.file [])],
        LinkResult.alreadyPresent) :=
  create_symlink_existing_skip _ _ _ (by decide) (Or.inr (by decide))

/-- C6 counterexample: a regular file occupying the managed symlink name
`compose.yaml` produces exactly the same log output as the path being
absent — one DEBUG-level "does not exist" message — so the
configuration-drift condition is not surfaced (the path itself is
preserved, which is the part of the claim that does hold). -/
theorem symlink_drift_not_surfaced_cex :
    (removeSymlinkLogged [(["compose.yaml".toList], FsObj.file [])]
        ["compose.yaml".toList]).2
      = (removeSymlinkLogged [] ["compose.yaml".toList]).2 ∧
    (removeSymlinkLogged [(["compose.yaml".toList], FsObj.file [])]
        ["compose.yaml".toList]).1
      = [(["compose.yaml".toList], FsObj.file [])] ∧
    ((removeSymlinkLogged [(["compose.yaml".toList], FsObj.file [])]
        ["compose.yaml".toList]).2.all
      (fun m => decide (m.1 = LogLevel.debug))) = true := by
  refine ⟨rfl, rfl, rfl⟩

/-- C6 amended: the symlink pass never unlinks or recurses into a
non-symlink occupying a managed symlink name — the state is returned
unchanged — but the condition is not surfaced: the pass emits only the
DEBUG message claiming the symlink "does not exist", indistinguishable
from the path being absent. -/
theorem symlink_step_preserves_nonsymlink (s : State) (p : Path)
    (h : (lookupPath s p).any isSymlinkObj = false) :
    removeSymlinkLogged s p =
      (s, [(LogLevel.debug,
        "Symlink ".toList ++ joinPath p ++ " does not exist. Skipping.".toList)]) := by
  simp [removeSymlinkLogged, h]

/-- Witness for C6: a directory sitting at `data/master.d`. -/
theorem symlink_step_preserves_nonsymlink_witness :
    removeSymlinkLogged [(["data".toList, "master.d".toList], FsObj.dir)]
        ["data".toList, "master.d".toList]
      = ([(["data".toList, "master.d".toList], FsObj.dir)],
        [(LogLevel.debug,
          "Symlink ".toList ++ joinPath ["data".toList, "master.d".toList]
            ++ " does not exist. Skipping.".toList)]) :=
  symlink_step_preserves_nonsymlink _ _ (by decide)

/-- C10 counterexample: the interactive launch prompt is asked exactly
once; an unrecognized first answer resolves the decision to skip even
though a recognized yes follows on the next line, so no re-prompt
happens. -/
theorem prompt_no_reprompt_cex :
    prompt_docker_compose false false ["maybe".toList, "y".toList] = Decision.skip ∧
    prompt_docker_compose false false ["y".toList] = Decision.launch := by
  refine ⟨rfl, rfl⟩

/-- C10 amended: interactively, `prompt_docker_compose` consumes at most
the first input line: end of input skips, a recognized yes (`y`/`yes`
after strip and lowercase) launches, and anything else — a recognized no
or invalid input — skips with no re-prompt. -/
theorem prompt_single_ask (autoConfirm : Bool) (a : Str) (rest : List Str) :
    (prompt_docker_compose false autoConfirm (a :: rest)
      = prompt_docker_compose false autoConfirm [a]) ∧
    (prompt_docker_compose false autoConfirm [] = Decision.skip) ∧
    (prompt_docker_compose false autoConfirm (a :: rest) = Decision.launch ↔
      recognizedYes (lowerStr (stripStr a)) = true) := by
  refine ⟨rfl, rfl, ?_⟩
  show (if recognizedYes (lowerStr (stripStr a)) then Decision.launch
    else Decision.skip) = Decision.launch ↔ _
  cases hr : recognizedYes (lowerStr (stripStr a)) <;> simp [hr]

/-! ### Claims on the Configuration Materializer (C1, C2) -/

theorem hasKey_false_of_all (m : List (Str × Str)) (k : Str)
    (h : ∀ e ∈ m, e.1 ≠ k) : hasKey m k = false := by
  unfold hasKey
  induction m with
  | nil => rfl
  | cons e t ih =>
    rw [List.any_cons, decide_eq_false (h e (by simp)), Bool.false_or]
    exact ih (fun x hx => h x (by simp [hx]))

theorem ne_of_hasKey_false (m : List (Str × Str)) (k : Str)
    (h : hasKey m k = false) : ∀ e ∈ m, e.1 ≠ k := by
  intro e he hc
  have : hasKey m k = true := List.any_eq_true.mpr ⟨e, he, by simp [hc]⟩
  rw [this] at h
  cases h

theorem promptChain_no_key (m2 : List (Str × Str)) (pp pr k : Str)
    (hm2 : ∀ e ∈ m2, e.1 ≠ k)
    (h1 : POSTGRES_USER_KEY ≠ k) (h2 : POSTGRES_PASS_KEY ≠ k)
    (h3 : REDIS_PASSWORD_KEY ≠ k) :
    hasKey (updEntry (updEntry (updEntry m2 POSTGRES_USER_KEY DEFAULT_POSTGRES_USER)
      POSTGRES_PASS_KEY pp) REDIS_PASSWORD_KEY pr) k = false := by
  apply hasKey_false_of_all
  intro e he
  rcases mem_updEntry _ _ _ _ he with he2 | rfl
  · rcases mem_updEntry _ _ _ _ he2 with he3 | rfl
    · rcases mem_updEntry _ _ _ _ he3 with he4 | rfl
      · exact hm2 e he4
      · exact h1
    · exact h2
  · exact h3

theorem dictUpdate_no_key (m n : List (Str × Str)) (k : Str)
    (hm : ∀ e ∈ m, e.1 ≠ k) (hn : hasKey n k = false) :
    hasKey (dictUpdate m n) k = false := by
  apply hasKey_false_of_all
  intro e he
  rcases mem_dictUpdate _ _ _ he with h | h
  · exact hm e h
  · exact ne_of_hasKey_false n k hn e h

/-- `computeEnvVars` in enterprise mode when both artifact globs are
empty: no artifact key is set and both warnings fire; the credential
handling is untouched. -/
theorem computeEnvVars_empty_globs (v : Str) (creds : Option (List (Str × Str)))
    (pp pr : Str) (s : State)
    (hr : globIn s RAAS_GLOB_DIR "raas".toList ".rpm".toList = [])
    (hp : globIn s PLUGIN_GLOB_DIR "SSEAPE".toList ".whl".toList = []) :
    computeEnvVars v true creds pp pr s =
      match creds with
      | some cr =>
        if hasKey cr POSTGRES_PASS_KEY && hasKey cr REDIS_PASSWORD_KEY then
          ⟨dictUpdate [(SALT_VERSION_KEY, v)] cr, false, true, true⟩
        else
          ⟨updEntry (updEntry (updEntry [(SALT_VERSION_KEY, v)]
              POSTGRES_USER_KEY DEFAULT_POSTGRES_USER)
            POSTGRES_PASS_KEY pp) REDIS_PASSWORD_KEY pr, true, true, true⟩
      | none =>
        ⟨updEntry (updEntry (updEntry [(SALT_VERSION_KEY, v)]
            POSTGRES_USER_KEY DEFAULT_POSTGRES_USER)
          POSTGRES_PASS_KEY pp) REDIS_PASSWORD_KEY pr, true, true, true⟩ := by
  unfold computeEnvVars
  simp only [hr, hp, List.isEmpty_nil]
  rfl

/-- C1 amended: when an artifact glob matches nothing, `write_env_file`
is not fatal: it records the corresponding warning, leaves the artifact
key out of the freshly computed `env_vars` (as long as the supplied
credentials do not smuggle it in), and still completes and writes the
configuration file. -/
theorem write_env_missing_artifact_warns (v : Str)
    (creds : Option (List (Str × Str))) (pp pr : Str) (s : State)
    (hr : globIn s RAAS_GLOB_DIR "raas".toList ".rpm".toList = [])
    (hp : globIn s PLUGIN_GLOB_DIR "SSEAPE".toList ".whl".toList = [])
    (hcred : ∀ cr, creds = some cr →
      hasKey cr RAAS_RPM_NAME_KEY = false ∧ hasKey cr MASTER_PLUGIN_NAME_KEY = false)
    (henv : lookupPath s ENV_FILE = none) :
    (computeEnvVars v true creds pp pr s).raasMissing = true ∧
    (computeEnvVars v true creds pp pr s).pluginMissing = true ∧
    hasKey (computeEnvVars v true creds pp pr s).vars RAAS_RPM_NAME_KEY = false ∧
    hasKey (computeEnvVars v true creds pp pr s).vars MASTER_PLUGIN_NAME_KEY = false ∧
    (∃ out, write_env_file v true creds pp pr s = .ok out) := by
  rw [computeEnvVars_empty_globs v creds pp pr s hr hp]
  have hSV1 : (SALT_VERSION_KEY : Str) ≠ RAAS_RPM_NAME_KEY := by decide
  have hSV2 : (SALT_VERSION_KEY : Str) ≠ MASTER_PLUGIN_NAME_KEY := by decide
  have hsingle1 : ∀ e ∈ [(SALT_VERSION_KEY, v)], e.1 ≠ RAAS_RPM_NAME_KEY := by
    intro e he
    rw [List.mem_singleton.mp he]
    exact hSV1
  have hsingle2 : ∀ e ∈ [(SALT_VERSION_KEY, v)], e.1 ≠ MASTER_PLUGIN_NAME_KEY := by
    intro e he
    rw [List.mem_singleton.mp he]
    exact hSV2
  refine ⟨?_, ?_, ?_, ?_, ⟨_, write_env_file_none v true creds pp pr s henv⟩⟩
  · cases creds with
    | none => rfl
    | some cr =>
      by_cases hb : (hasKey cr POSTGRES_PASS_KEY && hasKey cr REDIS_PASSWORD_KEY) = true
      · simp [hb]
      · simp [hb]
  · cases creds with
    | none => rfl
    | some cr =>
      by_cases hb : (hasKey cr POSTGRES_PASS_KEY && hasKey cr REDIS_PASSWORD_KEY) = true
      · simp [hb]
      · simp [hb]
  · cases creds with
    | none => exact promptChain_no_key _ pp pr _ hsingle1 (by decide) (by decide) (by decide)
    | some cr =>
      by_cases hb : (hasKey cr POSTGRES_PASS_KEY && hasKey cr REDIS_PASSWORD_KEY) = true
      · simp only [hb, if_true]
        exact dictUpdate_no_key _ _ _ hsingle1 (hcred cr rfl).1
      · simp only [hb, if_false]
        exact promptChain_no_key _ pp pr _ hsingle1 (by decide) (by decide) (by decide)
  · cases creds with
    | none => exact promptChain_no_key _ pp pr _ hsingle2 (by decide) (by decide) (by decide)
    | some cr =>
      by_cases hb : (hasKey cr POSTGRES_PASS_KEY && hasKey cr REDIS_PASSWORD_KEY) = true
      · simp only [hb, if_true]
        exact dictUpdate_no_key _ _ _ hsingle2 (hcred cr rfl).2
      · simp only [hb, if_false]
        exact promptChain_no_key _ pp pr _ hsingle2 (by decide) (by decide) (by decide)

/-- Witness for C1: enterprise materialization over an empty workspace. -/
theorem write_env_missing_artifact_warns_witness :
    (computeEnvVars "3006.9".toList true none "pp".toList "rr".toList []).raasMissing
      = true :=
  (write_env_missing_artifact_warns "3006.9".toList none "pp".toList "rr".toList []
    rfl rfl (fun _ hcr => Option.noConfusion hcr) rfl).1

/-- C1 counterexample: with both artifact globs empty and full
credentials supplied, `write_env_file` completes successfully (only
warnings are recorded) and the written `.env` contains no
`RAAS_RPM_NAME` or `MASTER_PLUGIN_NAME` line — the claim said the run
must abort. -/
theorem raas_glob_empty_completes_cex :
    write_env_file "3006.9".toList true
        (some [(POSTGRES_PASS_KEY, "p".toList), (REDIS_PASSWORD_KEY, "r".toList)])
        "pp".toList "rr".toList []
      = .ok ([([".env".toList], FsObj.file
            ["SALT_VERSION=3006.9".toList, "POSTGRES_PASS=p".toList,
              "REDIS_PASSWORD=r".toList])],
          ⟨[(SALT_VERSION_KEY, "3006.9".toList), (POSTGRES_PASS_KEY, "p".toList),
            (REDIS_PASSWORD_KEY, "r".toList)], false, true, true⟩) := rfl

/-- `computeEnvVars` whenever the credentials dict lacks one of the two
password keys: the prompt branch runs, whatever the globs matched. -/
theorem computeEnvVars_prompt_branch (v : Str) (cr : List (Str × Str))
    (pp pr : Str) (s : State)
    (hcr : (hasKey cr POSTGRES_PASS_KEY && hasKey cr REDIS_PASSWORD_KEY) = false) :
    ∃ m2, computeEnvVars v true (some cr) pp pr s =
      ⟨updEntry (updEntry (updEntry m2 POSTGRES_USER_KEY DEFAULT_POSTGRES_USER)
          POSTGRES_PASS_KEY pp) REDIS_PASSWORD_KEY pr,
        true,
        (globIn s RAAS_GLOB_DIR "raas".toList ".rpm".toList).isEmpty,
        (globIn s PLUGIN_GLOB_DIR "SSEAPE".toList ".whl".toList).isEmpty⟩ := by
  unfold computeEnvVars
  rcases globIn s RAAS_GLOB_DIR "raas".toList ".rpm".toList with _ | ⟨n1, t1⟩ <;>
    rcases globIn s PLUGIN_GLOB_DIR "SSEAPE".toList ".whl".toList with _ | ⟨n2, t2⟩
  · exact ⟨[(SALT_VERSION_KEY, v)], by simp [hcr]⟩
  · exact ⟨updEntry [(SALT_VERSION_KEY, v)] MASTER_PLUGIN_NAME_KEY n2, by simp [hcr]⟩
  · exact ⟨updEntry [(SALT_VERSION_KEY, v)] RAAS_RPM_NAME_KEY n1, by simp [hcr]⟩
  · exact ⟨updEntry (updEntry [(SALT_VERSION_KEY, v)] RAAS_RPM_NAME_KEY n1)
      MASTER_PLUGIN_NAME_KEY n2, by simp [hcr]⟩

/-- C2 amended: credential collection never consults the non-interactive
flag — `write_env_file` does not even receive it.  Whenever the supplied
credentials dict lacks one of the password keys (as in
`handle_enterprise_mode`, which passes only `POSTGRES_USER`), the
interactive `getpass` prompts run, the prompted secrets land in
`env_vars`, and the run then completes and writes the file instead of
failing fast. -/
theorem enterprise_secrets_always_prompted (v : Str) (cr : List (Str × Str))
    (pp pr : Str) (s : State)
    (hcr : (hasKey cr POSTGRES_PASS_KEY && hasKey cr REDIS_PASSWORD_KEY) = false)
    (henv : lookupPath s ENV_FILE = none) :
    (computeEnvVars v true (some cr) pp pr s).prompted = true ∧
    lookupKey (computeEnvVars v true (some cr) pp pr s).vars POSTGRES_PASS_KEY
      = some pp ∧
    lookupKey (computeEnvVars v true (some cr) pp pr s).vars REDIS_PASSWORD_KEY
      = some pr ∧
    (∃ out, write_env_file v true (some cr) pp pr s = .ok out) := by
  obtain ⟨m2, hcv⟩ := computeEnvVars_prompt_branch v cr pp pr s hcr
  rw [hcv]
  refine ⟨rfl, ?_, ?_, ⟨_, write_env_file_none v true (some cr) pp pr s henv⟩⟩
  · rw [lookupKey_updEntry, if_neg (by decide), lookupKey_updEntry, if_pos rfl]
  · rw [lookupKey_updEntry, if_pos rfl]

/-- Witness for C2 with exactly the credentials dict that
`handle_enterprise_mode` passes. -/
theorem enterprise_secrets_always_prompted_witness :
    (computeEnvVars "3006.9".toList true
        (some [(POSTGRES_USER_KEY, DEFAULT_POSTGRES_USER)])
      "pw1".toList "pw2".toList []).prompted = true :=
  (enterprise_secrets_always_prompted "3006.9".toList
    [(POSTGRES_USER_KEY, DEFAULT_POSTGRES_USER)] "pw1".toList "pw2".toList []
    (by decide) rfl).1

def runPrompted (r : Except State (State × EnvCompute × Decision)) : Bool :=
  match r with
  | .ok (_, cv, _) => cv.prompted
  | .error _ => false

def runWroteEnv (r : Except State (State × EnvCompute × Decision)) : Bool :=
  match r with
  | .ok (t, _, _) => (lookupPath t ENV_FILE).isSome
  | .error _ => false

set_option maxHeartbeats 2000000 in
/-- C2 counterexample: a full non-interactive Enterprise run (well-formed
bundle, no programmatic passwords) does not fail fast: it collects the
secrets through the `getpass` prompts and writes the configuration
file. -/
theorem enterprise_noninteractive_prompts_cex :
    runPrompted (handle_enterprise_mode "3006.9".toList true false
        "pw1".toList "pw2".toList []
        [ (["vRA_SaltStack_Config-8.14.0.tar.gz".toList],
            FsObj.archive
              [ (["sse-installer".toList, "salt".toList, "sse".toList,
                  "eapi_service".toList], true),
                (["sse-installer".toList, "salt".toList, "sse".toList,
                  "eapi_plugin".toList], true) ]),
          (["aria-compose.yaml".toList], FsObj.file []),
          (["data".toList, "ent-master".toList], FsObj.dir) ]) = true ∧
    runWroteEnv (handle_enterprise_mode "3006.9".toList true false
        "pw1".toList "pw2".toList []
        [ (["vRA_SaltStack_Config-8.14.0.tar.gz".toList],
            FsObj.archive
              [ (["sse-installer".toList, "salt".toList, "sse".toList,
                  "eapi_service".toList], true),
                (["sse-installer".toList, "salt".toList, "sse".toList,
                  "eapi_plugin".toList], true) ]),
          (["aria-compose.yaml".toList], FsObj.file []),
          (["data".toList, "ent-master".toList], FsObj.dir) ]) = true := by
  refine ⟨by decide, by decide⟩

/-! ### Claims on the Bundle Acquirer (C3, C4) -/

theorem lookupPath_extractAll_other (members : List (Path × Bool)) :
    ∀ (s : State) (p : Path),
      (∀ m ∈ members, normalizePath ("build".toList :: m.1) ≠ p) →
      lookupPath (extractAll s members) p = lookupPath s p := by
  induction members with
  | nil => intro s p _; rfl
  | cons a t ih =>
    intro s p h
    show lookupPath (extractAll (setEntry s _ _) t) p = _
    rw [ih _ p (fun m hm => h m (by simp [hm]))]
    exact lookupPath_setEntry_ne _ _ _ p (fun hc => h a (by simp) hc.symm)

/-- C3 amended: `tar.extractall` applies no member filter at all.  Every
member — traversal names included — is written at the lexical resolution
of `build/<member name>`, whether or not that path lies inside the
scratch directory. -/
theorem extractall_no_traversal_check (s : State) (members : List (Path × Bool))
    (hnd : (members.map (fun m => normalizePath ("build".toList :: m.1))).Nodup) :
    ∀ m ∈ members,
      lookupPath (extractAll s members) (normalizePath ("build".toList :: m.1))
        = some (if m.2 then FsObj.dir else FsObj.file []) := by
  induction members generalizing s with
  | nil => intro m hm; cases hm
  | cons a t ih =>
    intro m hm
    simp only [List.map_cons, List.nodup_cons] at hnd
    rcases List.mem_cons.mp hm with rfl | hm'
    · have hother : ∀ x ∈ t, normalizePath ("build".toList :: x.1)
          ≠ normalizePath ("build".toList :: m.1) := by
        intro x hx hc
        apply hnd.1
        rw [← hc]
        exact List.mem_map_of_mem _ hx
      show lookupPath (extractAll (setEntry s _ _) t) _ = _
      rw [lookupPath_extractAll_other t _ _ hother]
      exact lookupPath_setEntry_self _ _ _
    · exact ih (setEntry s _ _) hnd.2 m hm'

/-- Witness for C3: the single crafted member `../../escape` lands at
`../escape`, outside the scratch directory `build`. -/
theorem extractall_no_traversal_check_witness :
    lookupPath (extractAll []
        [(["..".toList, "..".toList, "escape".toList], false)])
      (normalizePath ("build".toList :: ["..".toList, "..".toList, "escape".toList]))
      = some (FsObj.file []) :=
  extractall_no_traversal_check [] [(["..".toList, "..".toList, "escape".toList], false)]
    (by decide) (["..".toList, "..".toList, "escape".toList], false) (by decide)

/-- C3 counterexample: extracting a matching bundle whose only member is
named `../../escape` creates the file at `../escape` — outside the
scratch directory `build` — before the run later fails on the missing
installer subtree; extraction neither fails closed nor confines its
writes. -/
theorem extract_traversal_escapes_cex :
    prepare_enterprise_bundle
        [(["vRA_SaltStack_Config-8.14.tar.gz".toList],
          FsObj.archive [(["..".toList, "..".toList, "escape".toList], false)])]
      = .error
        [(["vRA_SaltStack_Config-8.14.tar.gz".toList],
          FsObj.archive [(["..".toList, "..".toList, "escape".toList], false)]),
         (["..".toList, "escape".toList], FsObj.file [])] ∧
    isPathUnder ["build".toList] ["..".toList, "escape".toList] = false := by
  refine ⟨rfl, rfl⟩

theorem lookupPath_step_cases {f : State → Path → State} (hf : RemStep f)
    (s : State) (a p : Path) :
    lookupPath (f s a) p = lookupPath s p ∨ lookupPath (f s a) p = none := by
  rcases hf s a with he | ⟨q, he⟩
  · rw [he]
    exact Or.inl rfl
  · rw [he, lookupPath_keyFilter]
    cases q p
    · simp
    · simp

theorem lookupPath_foldl_cases {f : State → Path → State} (hf : RemStep f)
    (l : List Path) :
    ∀ (s : State) (p : Path),
      lookupPath (l.foldl f s) p = lookupPath s p ∨
      lookupPath (l.foldl f s) p = none := by
  induction l with
  | nil => intro s p; exact Or.inl rfl
  | cons a t ih =>
    intro s p
    simp only [List.foldl_cons]
    rcases ih (f s a) p with h | h
    · rcases lookupPath_step_cases hf s a p with h2 | h2
      · exact Or.inl (h.trans h2)
      · exact Or.inr (h.trans h2)
    · exact Or.inr h

theorem lookupPath_clean_cases (s : State) (p : Path) :
    lookupPath (clean_environment s) p = lookupPath s p ∨
      lookupPath (clean_environment s) p = none := by
  unfold clean_environment
  rcases lookupPath_foldl_cases remStep_removeSymlinkStep SYMLINKS_TO_REMOVE _ p with h | h
  · rcases lookupPath_foldl_cases remStep_removeFileStep FILES_TO_REMOVE _ p with h2 | h2
    · rcases lookupPath_foldl_cases remStep_removeDirStep DIRECTORIES_TO_REMOVE s p with h3 | h3
      · exact Or.inl ((h.trans h2).trans h3)
      · exact Or.inr ((h.trans h2).trans h3)
    · exact Or.inr (h.trans h2)
  · exact Or.inr h

/-- A pre-existing `.env` file is gone after `clean_environment`. -/
theorem clean_removes_env_file (s : State) (ls : List Str)
    (h : lookupPath s ENV_FILE = some (.file ls)) :
    lookupPath (clean_environment s) ENV_FILE = none := by
  rcases lookupPath_clean_cases s ENV_FILE with he | he
  · exfalso
    have hcf : condFile (clean_environment s) ENV_FILE = false :=
      clean_post_file s ENV_FILE (by decide)
    have hct : condFile (clean_environment s) ENV_FILE = true := by
      unfold condFile pathIsFile
      rw [resolved_nonlink _ _ _ (he.trans h) rfl]
      rfl
    rw [hct] at hcf
    cases hcf
  · exact he

/-- C4 amended: with no archive matching the installer pattern, the
Enterprise run fails fatally and no configuration file is written — the
state at exit is exactly the post-clean workspace, in which no `.env`
exists — but a pre-existing `.env` does not survive byte-for-byte: it is
deleted by the clean step that runs before the bundle check. -/
theorem enterprise_missing_bundle_aborts (v : Str) (ni ac : Bool) (pp pr : Str)
    (ans : List Str) (s : State)
    (hb : bundleMatches (clean_environment s) = []) :
    handle_enterprise_mode v ni ac pp pr ans s = .error (clean_environment s) ∧
    (∀ ls, lookupPath s ENV_FILE = some (.file ls) →
      lookupPath (clean_environment s) ENV_FILE = none) := by
  constructor
  · have hprep : prepare_enterprise_bundle (clean_environment s)
        = .error (clean_environment s) := by
      unfold prepare_enterprise_bundle
      rw [hb]
    unfold handle_enterprise_mode
    rw [hprep]
  · intro ls h
    exact clean_removes_env_file s ls h

/-- Witness for C4 on an empty workspace (no bundle present). -/
theorem enterprise_missing_bundle_aborts_witness :
    handle_enterprise_mode "3006.9".toList true false "pp".toList "rr".toList [] []
      = .error (clean_environment []) :=
  (enterprise_missing_bundle_aborts "3006.9".toList true false "pp".toList "rr".toList
    [] [] (by decide)).1

/-- C4 counterexample: starting from a workspace whose only entry is a
populated `.env`, the Enterprise run with no bundle does fail fatally,
but the final state is empty: the pre-existing `.env` was removed (by
the clean step), contradicting "byte-for-byte identical, including still
existing". -/
theorem enterprise_missing_bundle_env_removed_cex :
    handle_enterprise_mode "3006.9".toList true false "pp".toList "rr".toList []
        [([".env".toList], FsObj.file ["A=1".toList])]
      = .error [] ∧
    lookupPath [([".env".toList], FsObj.file ["A=1".toList])] ENV_FILE
      = some (FsObj.file ["A=1".toList]) := by
  refine ⟨rfl, rfl⟩

end Prep
